import Mathlib

/-
Verification of the CSAT / CSAT2 to SAT reduction engine (circuitsat.py).

The first half of this file is a shallow embedding of the Python source:
gates are Python lists of heterogeneous values, so they are modelled as
lists of a small inductive type of Python values.  The second half states
and proves properties of the encoder, the validator, the circuit
duplicator, the distinctness gadget and the two reduction drivers.
-/

/-- A Python runtime value as it occurs inside a gate list: a string tag,
an integer operand, or a nested list (the duplicator can create nested
lists).  Mirrors the dynamic typing of the source. -/
inductive PyVal where
  | vstr : String → PyVal
  | vint : Int → PyVal
  | vlist : List PyVal → PyVal

/-- The Circuit class: an input count `n` and an ordered gate list.
Each gate is the Python list `[tag]`, `[tag, h1]` or `[tag, h1, h2]`. -/
structure Circuit where
  n : Nat
  gates : List (List PyVal)

/-- Source line 60: the gate vocabulary string. -/
def gate_types : String := "01CANOEX"

/-- Source line 61. -/
def nullary_gates : String := "01"

/-- Source line 62. -/
def unary_gates : String := "CN"

/-- Source line 63. -/
def binary_gates : String := "AOEX"

/-- Models the Python idiom `len(g) == 1 and s.find(g) != -1`: the token
`g` is a single character occurring in the catalogue string `s`. -/
def charIn (s g : String) : Bool :=
  (g.data.length == 1) && s.data.contains (g.data.headD 'z')

/-- Source lines 66-67. -/
def valid_gate_type (g : String) : Bool := charIn gate_types g

/-- Source lines 70-71. -/
def is_nullary (g : String) : Bool := charIn nullary_gates g

/-- Source lines 74-75. -/
def is_unary (g : String) : Bool := charIn unary_gates g

/-- Source lines 78-79. -/
def is_binary (g : String) : Bool := charIn binary_gates g

/-- Source lines 82-83: operand `h` must satisfy `h < g and h > 0`. -/
def is_gate_valid (h g : Int) : Bool := decide (h < g) && decide (h > 0)

/-- A raw gate description as parsed from one line of a circuit file:
the tag token followed by the integer operands.  (The DIMACS-style text
plumbing itself is out of scope; this is the already-tokenised line.) -/
structure RawGate where
  tag : String
  ops : List Int

/-- One iteration of the validation loop in read_circuit_file
(source lines 109-137), at gate number `gnum = n + i` for the current
gate index `i`.  Returns the stored gate list on success and `none`
where the Python code raises ValueError. -/
def checkGate (gnum : Int) (rg : RawGate) : Option (List PyVal) :=
  if !(valid_gate_type rg.tag) then none
  else if is_nullary rg.tag && (rg.ops.length == 0) then
    some [PyVal.vstr rg.tag]
  else if is_unary rg.tag && (rg.ops.length == 1) then
    if is_gate_valid (rg.ops.headD 0) gnum then
      some [PyVal.vstr rg.tag, PyVal.vint (rg.ops.headD 0)]
    else none
  else if is_binary rg.tag && (rg.ops.length == 2) then
    if is_gate_valid (rg.ops.headD 0) gnum &&
        is_gate_valid ((rg.ops.drop 1).headD 0) gnum then
      some [PyVal.vstr rg.tag, PyVal.vint (rg.ops.headD 0),
            PyVal.vint ((rg.ops.drop 1).headD 0)]
    else none
  else none

/-- The validation loop of read_circuit_file over the whole gate list,
threading `g_number_so_far` (source lines 107-137). -/
def read_gates (gnum : Int) (raws : List RawGate) : Option (List (List PyVal)) :=
  match raws with
  | [] => some []
  | rg :: rest =>
      match checkGate gnum rg with
      | none => none
      | some gate =>
          match read_gates (gnum + 1) rest with
          | none => none
          | some gs => some (gate :: gs)

/-- read_circuit_file (source lines 97-141) over already-tokenised input:
an empty gate list is rejected (the `len(lines) < 2` check), otherwise
the gates are validated with `g_number_so_far` starting at `n + 1`.
`none` models the INVALID return. -/
def read_circuit (n : Nat) (raws : List RawGate) : Option Circuit :=
  if raws.length == 0 then none
  else
    match read_gates ((n : Int) + 1) raws with
    | none => none
    | some gs => some { n := n, gates := gs }

/-- Using a Python value as an integer.  Every reachable use in the
translated code applies this to values that are integers. -/
def asInt (v : PyVal) : Int :=
  match v with
  | PyVal.vint i => i
  | _ => 0

/-- Python equality test between an arbitrary value and a string literal:
comparisons across types are False in Python. -/
def pyEqStr (v : PyVal) (s : String) : Bool :=
  match v with
  | PyVal.vstr t => t == s
  | _ => false

/-- The per-gate clause emission of CSAT_to_SAT (source lines 147-175):
`h1`, `h2` default to 0 and are filled from the gate list according to
its length; the tag is dispatched through the if/elif chain, whose final
else branch emits the XOR clauses. -/
def gateClauses (g : Int) (gate : List PyVal) : List (List Int) :=
  let gateType := gate.headD (PyVal.vstr "")
  let h1 : Int :=
    if gate.length = 2 then asInt (gate.getD 1 (PyVal.vint 0))
    else if gate.length = 3 then asInt (gate.getD 1 (PyVal.vint 0))
    else 0
  let h2 : Int :=
    if gate.length = 3 then asInt (gate.getD 2 (PyVal.vint 0))
    else 0
  if pyEqStr gateType "0" then [[-g]]
  else if pyEqStr gateType "1" then [[g]]
  else if pyEqStr gateType "C" then [[g, -h1], [-g, h1]]
  else if pyEqStr gateType "N" then [[g, h1], [-g, -h1]]
  else if pyEqStr gateType "A" then [[-g, h1], [-g, h2], [g, -h1, -h2]]
  else if pyEqStr gateType "O" then [[g, -h1], [g, -h2], [-g, h1, h2]]
  else if pyEqStr gateType "E" then
    [[g, -h1, -h2], [g, h1, h2], [-g, h1, -h2], [-g, -h1, h2]]
  else
    [[-g, -h1, -h2], [-g, h1, h2], [g, h1, -h2], [g, -h1, h2]]

/-- The loop of CSAT_to_SAT: `enumerate(gates, start=n+1)` becomes
recursion with a running base variable `b`, the head gate owning
variable `b + 1`. -/
def gateCNFs (b : Nat) (gates : List (List PyVal)) : List (List Int) :=
  match gates with
  | [] => []
  | gate :: rest => gateClauses ((b + 1 : Nat) : Int) gate ++ gateCNFs (b + 1) rest

/-- CSAT_to_SAT (source lines 144-178): all per-gate clauses followed by
the closing unit clause over variable `n + len(gates)`. -/
def CSAT_to_SAT (c : Circuit) : List (List Int) :=
  gateCNFs c.n c.gates ++ [[((c.n + c.gates.length : Nat) : Int)]]

/-- The loop of create_distinct_variables_cnf (source lines 191-195):
for each further coordinate pair, XOR defining clauses at the current
fresh variable, then OR-accumulator clauses at the next one. -/
def distinct_loop (pairs : List (Int × Int)) (g : Int) : List (List Int) :=
  match pairs with
  | [] => []
  | (ti, tj) :: rest =>
      [[-g, -ti, -tj], [-g, ti, tj], [g, ti, -tj], [g, -ti, tj]] ++
      [[g + 1, -(g - 1)], [g + 1, -g], [-(g + 1), g - 1, g]] ++
      distinct_loop rest (g + 2)

/-- create_distinct_variables_cnf (source lines 181-196): variables
`1..n` are split in half into the original block and the copy block,
zipped into coordinate pairs; the first pair gets its XOR clauses at
fresh variable `g`, the remaining pairs go through the loop. -/
def create_distinct_variables_cnf (n : Nat) (g : Int) : List (List Int) :=
  let var_list : List Int := (List.range n).map (fun e => (e : Int) + 1)
  let original_vars := var_list.take (n / 2)
  let copy_vars := var_list.drop (n / 2)
  let tuple_list := original_vars.zip copy_vars
  let p := tuple_list.headD (0, 0)
  [[-g, -p.1, -p.2], [-g, p.1, p.2], [g, p.1, -p.2], [g, -p.1, p.2]] ++
  distinct_loop tuple_list.tail (g + 1)

/-- Source lines 199-203. -/
def find_correct_copy_g (gate : Int) (n : Nat) (original_g : Int)
    (circuit_len : Nat) : Int :=
  if gate ≤ (n : Int) then (n : Int) + gate
  else original_g + (circuit_len : Int)

/-- Source lines 206-209. -/
def find_correct_original_g (gate : Int) (n : Nat) : Int :=
  if gate > (n : Int) then gate + (n : Int)
  else gate

/-- One iteration of the copy_circuit loop (source lines 218-235):
returns the value written back into `original_gates[index]` together
with the element appended to `copy_gates`.  Note the length-1 branch
appends `[[gate]]`, a nested list, exactly as the source does. -/
def copyGateStep (n k : Nat) (gate : List PyVal) : List PyVal × List PyVal :=
  match gate with
  | [t] => ([t], [PyVal.vlist [t]])
  | [t, h1] =>
      let original_g := find_correct_original_g (asInt h1) n
      ([t, PyVal.vint original_g],
       [t, PyVal.vint (find_correct_copy_g (asInt h1) n original_g k)])
  | t :: h1 :: h2 :: _ =>
      let first_original_g := find_correct_original_g (asInt h1) n
      let second_original_g := find_correct_original_g (asInt h2) n
      ([t, PyVal.vint first_original_g, PyVal.vint second_original_g],
       [t, PyVal.vint (find_correct_copy_g (asInt h1) n first_original_g k),
        PyVal.vint (find_correct_copy_g (asInt h2) n second_original_g k)])
  | [] => ([], [])

/-- copy_circuit (source lines 212-239): the returned circuit has `2n`
inputs and consists of the renumbered original gates, the copy gates,
and the final AND gate over the two output variables.
`len(original_gates)` is the full length `k` throughout the loop, since
the source mutates elements in place without changing the length. -/
def copy_circuit (c : Circuit) : Circuit :=
  let k := c.gates.length
  let pairs := c.gates.map (copyGateStep c.n k)
  let original_gates := pairs.map Prod.fst
  let copy_gates := pairs.map Prod.snd
  let last_gate : List PyVal :=
    [PyVal.vstr "A", PyVal.vint ((2 * c.n + k : Nat) : Int),
     PyVal.vint ((2 * c.n + k + k : Nat) : Int)]
  { n := 2 * c.n, gates := original_gates ++ copy_gates ++ [last_gate] }

/-- The value held by `circuit.gates` after copy_circuit returns: the
source assigns `original_gates[index] = ...` on the very list object of
its argument, so the input circuit gate list ends up renumbered. -/
def copy_circuit_post_gates (c : Circuit) : List (List PyVal) :=
  c.gates.map (fun gate => (copyGateStep c.n c.gates.length gate).1)

/-- reduce_CSAT_to_SAT (source lines 242-248), modelled over tokenised
input and returning the CNF that is written to the output file. -/
def reduce_CSAT_to_SAT (n : Nat) (raws : List RawGate) : List (List Int) :=
  match read_circuit n raws with
  | none => [[-1], [1]]
  | some c => CSAT_to_SAT c

/-- The CSAT2 pipeline on a validated circuit (source lines 256-260):
duplicate, encode, and append the distinctness clauses starting at fresh
variable `composite.n + len(composite.gates) + 1`. -/
def reduce_CSAT2_cnf (c : Circuit) : List (List Int) :=
  let composite := copy_circuit c
  CSAT_to_SAT composite ++
    create_distinct_variables_cnf composite.n
      ((composite.n + composite.gates.length + 1 : Nat) : Int)

/-- reduce_CSAT2_to_SAT (source lines 251-260), modelled over tokenised
input and returning the CNF that is written to the output file. -/
def reduce_CSAT2_to_SAT (n : Nat) (raws : List RawGate) : List (List Int) :=
  match read_circuit n raws with
  | none => [[-1], [1]]
  | some c => reduce_CSAT2_cnf c

/-! Specification-side definitions: CNF semantics and the circuit
semantics of the gate vocabulary, written from the tables in the spec. -/

/-- Satisfaction of one literal: a positive literal asks for the
variable true, a negative one for it false. -/
def litSat (α : Nat → Bool) (l : Int) : Bool :=
  if 0 < l then α l.toNat else !(α (-l).toNat)

/-- A clause is an implicit disjunction. -/
def clauseSat (α : Nat → Bool) (cl : List Int) : Bool := cl.any (litSat α)

/-- A CNF is an implicit conjunction. -/
def cnfSat (α : Nat → Bool) (cnf : List (List Int)) : Bool :=
  cnf.all (clauseSat α)

/-- Satisfiability of a CNF. -/
def satisfiable (cnf : List (List Int)) : Prop := ∃ α, cnfSat α cnf = true

/-- The Boolean function of each gate kind, from the vocabulary table of
the spec: constants, COPY, NOT, AND, OR, XNOR, XOR. -/
def specGateFun (t : String) (a b : Bool) : Bool :=
  if t = "0" then false
  else if t = "1" then true
  else if t = "C" then a
  else if t = "N" then !a
  else if t = "A" then a && b
  else if t = "O" then a || b
  else if t = "E" then a == b
  else a != b

/-- The value computed by one gate under an assignment of its operand
variables. -/
def specGateValue (σ : Nat → Bool) (gate : List PyVal) : Bool :=
  match gate with
  | [PyVal.vstr t] => specGateFun t false false
  | [PyVal.vstr t, PyVal.vint h1] => specGateFun t (σ h1.toNat) false
  | [PyVal.vstr t, PyVal.vint h1, PyVal.vint h2] =>
      specGateFun t (σ h1.toNat) (σ h2.toNat)
  | _ => false

/-- Evaluation of a gate list over base variable `b`: gate `i` of the
list writes its value into variable `b + 1 + i`, reading operands from
the assignment extended so far. -/
def specExtend (b : Nat) (gates : List (List PyVal)) (σ : Nat → Bool) : Nat → Bool :=
  match gates with
  | [] => σ
  | gate :: rest =>
      specExtend (b + 1) rest
        (fun v => if v = b + 1 then specGateValue σ gate else σ v)

/-- The value of the designated output (the last gate, variable
`n + len(gates)`) of a circuit under an input assignment. -/
def specOutput (c : Circuit) (σ : Nat → Bool) : Bool :=
  specExtend c.n c.gates σ (c.n + c.gates.length)

/-- Restriction of an assignment to the input variables `1..n`. -/
def inputRestrict (n : Nat) (α : Nat → Bool) : Nat → Bool :=
  fun v => if v ≤ n then α v else false

/-- The clause table of the spec for each gate kind, literally
transcribed from the table enforcing `g ⇔ f(...)`. -/
def specTseitinClauses (g : Int) (gate : List PyVal) : List (List Int) :=
  match gate with
  | [PyVal.vstr t] =>
      if t = "0" then [[-g]]
      else if t = "1" then [[g]]
      else []
  | [PyVal.vstr t, PyVal.vint h1] =>
      if t = "C" then [[g, -h1], [-g, h1]]
      else if t = "N" then [[g, h1], [-g, -h1]]
      else []
  | [PyVal.vstr t, PyVal.vint h1, PyVal.vint h2] =>
      if t = "A" then [[-g, h1], [-g, h2], [g, -h1, -h2]]
      else if t = "O" then [[g, -h1], [g, -h2], [-g, h1, h2]]
      else if t = "E" then
        [[g, -h1, -h2], [g, h1, h2], [-g, h1, -h2], [-g, -h1, h2]]
      else if t = "X" then
        [[-g, -h1, -h2], [-g, h1, h2], [g, h1, -h2], [g, -h1, h2]]
      else []
  | _ => []

/-- Well-formedness of one stored gate whose own variable is `v`: the
shape matches the arity of its kind and every operand `h` satisfies
`0 < h < v`. -/
def gateOk (v : Nat) (gate : List PyVal) : Bool :=
  match gate with
  | [PyVal.vstr t] => is_nullary t
  | [PyVal.vstr t, PyVal.vint h1] =>
      is_unary t && (decide (0 < h1) && decide (h1 < (v : Int)))
  | [PyVal.vstr t, PyVal.vint h1, PyVal.vint h2] =>
      is_binary t && (decide (0 < h1) && decide (h1 < (v : Int))) &&
        (decide (0 < h2) && decide (h2 < (v : Int)))
  | _ => false

/-- Well-formedness of a gate list over base variable `b`. -/
def gatesWF (b : Nat) (gates : List (List PyVal)) : Bool :=
  match gates with
  | [] => true
  | gate :: rest => gateOk (b + 1) gate && gatesWF (b + 1) rest

/-- A valid circuit: at least one gate, and every gate well formed with
operands strictly below its own variable. -/
def circuitOk (c : Circuit) : Bool :=
  decide (1 ≤ c.gates.length) && gatesWF c.n c.gates

/-- The assignment agrees with the gate semantics on every gate of the
list over base variable `b`. -/
def consistentFrom (α : Nat → Bool) (b : Nat) (gates : List (List PyVal)) : Prop :=
  match gates with
  | [] => True
  | gate :: rest =>
      α (b + 1) = specGateValue α gate ∧ consistentFrom α (b + 1) rest

/-- The arity of a gate kind per the vocabulary. -/
def arityOf (t : String) : Nat :=
  if is_nullary t then 0 else if is_unary t then 1 else 2

/-- The validation contract for one raw gate whose own variable is
`bound`: recognised tag, operand count equal to the arity of the tag,
and every operand strictly between 0 and `bound`. -/
def claimGateOk (bound : Int) (rg : RawGate) : Prop :=
  valid_gate_type rg.tag = true ∧ rg.ops.length = arityOf rg.tag ∧
    ∀ x ∈ rg.ops, 0 < x ∧ x < bound

/-- The stored form of a raw gate: the tag followed by its operands. -/
def rawToGate (rg : RawGate) : List PyVal :=
  PyVal.vstr rg.tag :: rg.ops.map PyVal.vint

/-- A small valid example circuit: one COPY gate on the sole input. -/
def exCircuit : Circuit :=
  { n := 1, gates := [[PyVal.vstr "C", PyVal.vint 1]] }

/-- A valid circuit with one constant FALSE gate. -/
def cexNullary : Circuit := { n := 1, gates := [[PyVal.vstr "0"]] }

/-- A valid circuit with one constant TRUE gate. -/
def cexTrue : Circuit := { n := 1, gates := [[PyVal.vstr "1"]] }

/-- A valid circuit whose second gate references the first gate. -/
def cexTwoGates : Circuit :=
  { n := 1,
    gates := [[PyVal.vstr "C", PyVal.vint 1], [PyVal.vstr "N", PyVal.vint 2]] }

/-! Lemmas about the character-catalogue predicates. -/

theorem charIn_cases {s t : String} (h : charIn s t = true) :
    ∃ c, t = String.mk [c] ∧ c ∈ s.data := by
  unfold charIn at h
  rw [Bool.and_eq_true] at h
  obtain ⟨h1, h2⟩ := h
  have hl : t.data.length = 1 := by simpa using h1
  obtain ⟨c, hc⟩ := List.length_eq_one.mp hl
  refine ⟨c, ?_, ?_⟩
  · cases t with
    | mk data =>
        simp only [] at hc
        rw [hc]
  · have hh : t.data.headD 'z' = c := by rw [hc]; rfl
    rw [hh] at h2
    simpa using h2

theorem is_nullary_cases {t : String} (h : is_nullary t = true) :
    t = "0" ∨ t = "1" := by
  obtain ⟨c, rfl, hm⟩ := charIn_cases h
  have hc : c = '0' ∨ c = '1' := by
    have e : nullary_gates.data = ['0', '1'] := rfl
    rw [e] at hm
    simpa using hm
  rcases hc with rfl | rfl
  · exact Or.inl rfl
  · exact Or.inr rfl

theorem is_unary_cases {t : String} (h : is_unary t = true) :
    t = "C" ∨ t = "N" := by
  obtain ⟨c, rfl, hm⟩ := charIn_cases h
  have hc : c = 'C' ∨ c = 'N' := by
    have e : unary_gates.data = ['C', 'N'] := rfl
    rw [e] at hm
    simpa using hm
  rcases hc with rfl | rfl
  · exact Or.inl rfl
  · exact Or.inr rfl

theorem is_binary_cases {t : String} (h : is_binary t = true) :
    t = "A" ∨ t = "O" ∨ t = "E" ∨ t = "X" := by
  obtain ⟨c, rfl, hm⟩ := charIn_cases h
  have hc : c = 'A' ∨ c = 'O' ∨ c = 'E' ∨ c = 'X' := by
    have e : binary_gates.data = ['A', 'O', 'E', 'X'] := rfl
    rw [e] at hm
    simpa using hm
  rcases hc with rfl | rfl | rfl | rfl
  · exact Or.inl rfl
  · exact Or.inr (Or.inl rfl)
  · exact Or.inr (Or.inr (Or.inl rfl))
  · exact Or.inr (Or.inr (Or.inr rfl))

theorem valid_gate_type_cases {t : String} (h : valid_gate_type t = true) :
    t = "0" ∨ t = "1" ∨ t = "C" ∨ t = "A" ∨ t = "N" ∨ t = "O" ∨ t = "E" ∨ t = "X" := by
  obtain ⟨c, rfl, hm⟩ := charIn_cases h
  have hc : c = '0' ∨ c = '1' ∨ c = 'C' ∨ c = 'A' ∨ c = 'N' ∨ c = 'O' ∨ c = 'E' ∨ c = 'X' := by
    have e : gate_types.data = ['0', '1', 'C', 'A', 'N', 'O', 'E', 'X'] := rfl
    rw [e] at hm
    simpa using hm
  rcases hc with rfl | rfl | rfl | rfl | rfl | rfl | rfl | rfl
  · exact Or.inl rfl
  · exact Or.inr (Or.inl rfl)
  · exact Or.inr (Or.inr (Or.inl rfl))
  · exact Or.inr (Or.inr (Or.inr (Or.inl rfl)))
  · exact Or.inr (Or.inr (Or.inr (Or.inr (Or.inl rfl))))
  · exact Or.inr (Or.inr (Or.inr (Or.inr (Or.inr (Or.inl rfl)))))
  · exact Or.inr (Or.inr (Or.inr (Or.inr (Or.inr (Or.inr (Or.inl rfl))))))
  · exact Or.inr (Or.inr (Or.inr (Or.inr (Or.inr (Or.inr (Or.inr rfl))))))

/-! Lemmas about the CNF semantics. -/

theorem litSat_pos (α : Nat → Bool) {l : Int} (h : 0 < l) :
    litSat α l = α l.toNat := if_pos h

theorem litSat_neg (α : Nat → Bool) {l : Int} (h : 0 < l) :
    litSat α (-l) = !(α l.toNat) := by
  unfold litSat
  rw [if_neg (by omega), neg_neg]

theorem litSat_cast (α : Nat → Bool) {v : Nat} (h : 1 ≤ v) :
    litSat α ((v : Nat) : Int) = α v := by
  rw [litSat_pos α (by exact_mod_cast h)]
  simp

theorem litSat_neg_cast (α : Nat → Bool) {v : Nat} (h : 1 ≤ v) :
    litSat α (-((v : Nat) : Int)) = !(α v) := by
  rw [litSat_neg α (by exact_mod_cast h)]
  simp

theorem cnfSat_append (α : Nat → Bool) (a b : List (List Int)) :
    cnfSat α (a ++ b) = (cnfSat α a && cnfSat α b) := List.all_append

/-! Gate-level lemmas. -/

theorem gateOk_shapes {v : Nat} {gate : List PyVal} (h : gateOk v gate = true) :
    (∃ t, gate = [PyVal.vstr t] ∧ is_nullary t = true) ∨
    (∃ t h1, gate = [PyVal.vstr t, PyVal.vint h1] ∧ is_unary t = true ∧
      0 < h1 ∧ h1 < (v : Int)) ∨
    (∃ t h1 h2, gate = [PyVal.vstr t, PyVal.vint h1, PyVal.vint h2] ∧
      is_binary t = true ∧ 0 < h1 ∧ h1 < (v : Int) ∧ 0 < h2 ∧ h2 < (v : Int)) := by
  rcases gate with _ | ⟨x, _ | ⟨y, _ | ⟨z, _ | ⟨w, rest⟩⟩⟩⟩
  · simp [gateOk] at h
  · rcases x with t | i | l
    · exact Or.inl ⟨t, rfl, by simpa [gateOk] using h⟩
    · simp [gateOk] at h
    · simp [gateOk] at h
  · rcases x with t | i | l
    · rcases y with t2 | h1 | l2
      · simp [gateOk] at h
      · refine Or.inr (Or.inl ⟨t, h1, rfl, ?_⟩)
        simpa [gateOk, and_assoc] using h
      · simp [gateOk] at h
    · simp [gateOk] at h
    · simp [gateOk] at h
  · rcases x with t | i | l
    · rcases y with t2 | h1 | l2
      · simp [gateOk] at h
      · rcases z with t3 | h2 | l3
        · simp [gateOk] at h
        · refine Or.inr (Or.inr ⟨t, h1, h2, rfl, ?_⟩)
          simpa [gateOk, and_assoc] using h
        · simp [gateOk] at h
      · simp [gateOk] at h
    · simp [gateOk] at h
    · simp [gateOk] at h
  · simp [gateOk] at h

theorem gateClauses_eq_specTable {v : Nat} {gate : List PyVal}
    (h : gateOk v gate = true) (g : Int) :
    gateClauses g gate = specTseitinClauses g gate := by
  rcases gateOk_shapes h with ⟨t, rfl, ht⟩ | ⟨t, h1, rfl, ht, _⟩ |
    ⟨t, h1, h2, rfl, ht, _⟩
  · rcases is_nullary_cases ht with rfl | rfl <;> rfl
  · rcases is_unary_cases ht with rfl | rfl <;> rfl
  · rcases is_binary_cases ht with rfl | rfl | rfl | rfl <;> rfl

theorem gate_sat_iff {v : Nat} {gate : List PyVal} (hg : gateOk v gate = true)
    (hv : 1 ≤ v) (α : Nat → Bool) :
    (cnfSat α (gateClauses ((v : Nat) : Int) gate) = true ↔
      α v = specGateValue α gate) := by
  rcases gateOk_shapes hg with ⟨t, rfl, ht⟩ | ⟨t, h1, rfl, ht, hp1, hb1⟩ |
    ⟨t, h1, h2, rfl, ht, hp1, hb1, hp2, hb2⟩
  · rcases is_nullary_cases ht with rfl | rfl
    · have e : gateClauses ((v : Nat) : Int) [PyVal.vstr "0"] =
          [[-((v : Nat) : Int)]] := rfl
      have e2 : specGateValue α [PyVal.vstr "0"] = false := rfl
      rw [e, e2]
      simp only [cnfSat, clauseSat, List.all_cons, List.all_nil, List.any_cons,
        List.any_nil, litSat_neg_cast α hv, Bool.or_false, Bool.and_true]
      cases α v <;> simp
    · have e : gateClauses ((v : Nat) : Int) [PyVal.vstr "1"] =
          [[((v : Nat) : Int)]] := rfl
      have e2 : specGateValue α [PyVal.vstr "1"] = true := rfl
      rw [e, e2]
      simp only [cnfSat, clauseSat, List.all_cons, List.all_nil, List.any_cons,
        List.any_nil, litSat_cast α hv, Bool.or_false, Bool.and_true]
  · rcases is_unary_cases ht with rfl | rfl
    · have e : gateClauses ((v : Nat) : Int) [PyVal.vstr "C", PyVal.vint h1] =
          [[((v : Nat) : Int), -h1], [-((v : Nat) : Int), h1]] := rfl
      have e2 : specGateValue α [PyVal.vstr "C", PyVal.vint h1] = α h1.toNat := rfl
      rw [e, e2]
      simp only [cnfSat, clauseSat, List.all_cons, List.all_nil, List.any_cons,
        List.any_nil, litSat_cast α hv, litSat_neg_cast α hv, litSat_pos α hp1,
        litSat_neg α hp1, Bool.or_false, Bool.and_true]
      cases α v <;> cases α h1.toNat <;> simp
    · have e : gateClauses ((v : Nat) : Int) [PyVal.vstr "N", PyVal.vint h1] =
          [[((v : Nat) : Int), h1], [-((v : Nat) : Int), -h1]] := rfl
      have e2 : specGateValue α [PyVal.vstr "N", PyVal.vint h1] = !(α h1.toNat) := rfl
      rw [e, e2]
      simp only [cnfSat, clauseSat, List.all_cons, List.all_nil, List.any_cons,
        List.any_nil, litSat_cast α hv, litSat_neg_cast α hv, litSat_pos α hp1,
        litSat_neg α hp1, Bool.or_false, Bool.and_true]
      cases α v <;> cases α h1.toNat <;> simp
  · rcases is_binary_cases ht with rfl | rfl | rfl | rfl
    · have e : gateClauses ((v : Nat) : Int)
          [PyVal.vstr "A", PyVal.vint h1, PyVal.vint h2] =
          [[-((v : Nat) : Int), h1], [-((v : Nat) : Int), h2],
           [((v : Nat) : Int), -h1, -h2]] := rfl
      have e2 : specGateValue α [PyVal.vstr "A", PyVal.vint h1, PyVal.vint h2] =
          (α h1.toNat && α h2.toNat) := rfl
      rw [e, e2]
      simp only [cnfSat, clauseSat, List.all_cons, List.all_nil, List.any_cons,
        List.any_nil, litSat_cast α hv, litSat_neg_cast α hv, litSat_pos α hp1,
        litSat_neg α hp1, litSat_pos α hp2, litSat_neg α hp2, Bool.or_false,
        Bool.and_true]
      cases α v <;> cases α h1.toNat <;> cases α h2.toNat <;> simp
    · have e : gateClauses ((v : Nat) : Int)
          [PyVal.vstr "O", PyVal.vint h1, PyVal.vint h2] =
          [[((v : Nat) : Int), -h1], [((v : Nat) : Int), -h2],
           [-((v : Nat) : Int), h1, h2]] := rfl
      have e2 : specGateValue α [PyVal.vstr "O", PyVal.vint h1, PyVal.vint h2] =
          (α h1.toNat || α h2.toNat) := rfl
      rw [e, e2]
      simp only [cnfSat, clauseSat, List.all_cons, List.all_nil, List.any_cons,
        List.any_nil, litSat_cast α hv, litSat_neg_cast α hv, litSat_pos α hp1,
        litSat_neg α hp1, litSat_pos α hp2, litSat_neg α hp2, Bool.or_false,
        Bool.and_true]
      cases α v <;> cases α h1.toNat <;> cases α h2.toNat <;> simp
    · have e : gateClauses ((v : Nat) : Int)
          [PyVal.vstr "E", PyVal.vint h1, PyVal.vint h2] =
          [[((v : Nat) : Int), -h1, -h2], [((v : Nat) : Int), h1, h2],
           [-((v : Nat) : Int), h1, -h2], [-((v : Nat) : Int), -h1, h2]] := rfl
      have e2 : specGateValue α [PyVal.vstr "E", PyVal.vint h1, PyVal.vint h2] =
          (α h1.toNat == α h2.toNat) := rfl
      rw [e, e2]
      simp only [cnfSat, clauseSat, List.all_cons, List.all_nil, List.any_cons,
        List.any_nil, litSat_cast α hv, litSat_neg_cast α hv, litSat_pos α hp1,
        litSat_neg α hp1, litSat_pos α hp2, litSat_neg α hp2, Bool.or_false,
        Bool.and_true]
      cases α v <;> cases α h1.toNat <;> cases α h2.toNat <;> simp
    · have e : gateClauses ((v : Nat) : Int)
          [PyVal.vstr "X", PyVal.vint h1, PyVal.vint h2] =
          [[-((v : Nat) : Int), -h1, -h2], [-((v : Nat) : Int), h1, h2],
           [((v : Nat) : Int), h1, -h2], [((v : Nat) : Int), -h1, h2]] := rfl
      have e2 : specGateValue α [PyVal.vstr "X", PyVal.vint h1, PyVal.vint h2] =
          (α h1.toNat != α h2.toNat) := rfl
      rw [e, e2]
      simp only [cnfSat, clauseSat, List.all_cons, List.all_nil, List.any_cons,
        List.any_nil, litSat_cast α hv, litSat_neg_cast α hv, litSat_pos α hp1,
        litSat_neg α hp1, litSat_pos α hp2, litSat_neg α hp2, Bool.or_false,
        Bool.and_true]
      cases α v <;> cases α h1.toNat <;> cases α h2.toNat <;> simp

/-! Lemmas about well-formed gate lists and the encoder loop. -/

theorem gatesWF_cons {b : Nat} {gate : List PyVal} {rest : List (List PyVal)} :
    gatesWF b (gate :: rest) = (gateOk (b + 1) gate && gatesWF (b + 1) rest) := rfl

theorem gatesWF_getD :
    ∀ {gates : List (List PyVal)} {b i : Nat}, gatesWF b gates = true →
      i < gates.length → gateOk (b + 1 + i) (gates.getD i []) = true := by
  intro gates
  induction gates with
  | nil => intro b i _ hi; simp at hi
  | cons gate rest ih =>
      intro b i hwf hi
      rw [gatesWF_cons, Bool.and_eq_true] at hwf
      cases i with
      | zero => simpa using hwf.1
      | succ j =>
          simp only [List.getD_cons_succ]
          have e : b + 1 + (j + 1) = (b + 1) + 1 + j := by omega
          rw [e]
          exact ih hwf.2 (by simpa using hi)

theorem gateCNFs_decomp :
    ∀ {gates : List (List PyVal)} {b i : Nat}, i < gates.length →
      ∃ pre post, gateCNFs b gates =
        pre ++ gateClauses ((b + 1 + i : Nat) : Int) (gates.getD i []) ++ post := by
  intro gates
  induction gates with
  | nil => intro b i hi; simp at hi
  | cons gate rest ih =>
      intro b i hi
      cases i with
      | zero =>
          refine ⟨[], gateCNFs (b + 1) rest, ?_⟩
          simp [gateCNFs]
      | succ j =>
          obtain ⟨pre, post, hd⟩ := ih (b := b + 1) (i := j) (by simpa using hi)
          refine ⟨gateClauses ((b + 1 : Nat) : Int) gate ++ pre, post, ?_⟩
          have e : b + 1 + (j + 1) = (b + 1) + 1 + j := by omega
          simp only [gateCNFs, List.getD_cons_succ, e, hd]
          simp [List.append_assoc]

theorem gateCNFs_sat_iff :
    ∀ {gates : List (List PyVal)} {b : Nat} {α : Nat → Bool},
      gatesWF b gates = true →
      (cnfSat α (gateCNFs b gates) = true ↔ consistentFrom α b gates) := by
  intro gates
  induction gates with
  | nil => intro b α _; simp [gateCNFs, cnfSat, consistentFrom]
  | cons gate rest ih =>
      intro b α hwf
      rw [gatesWF_cons, Bool.and_eq_true] at hwf
      show cnfSat α (gateClauses ((b + 1 : Nat) : Int) gate ++ gateCNFs (b + 1) rest) =
          true ↔ consistentFrom α b (gate :: rest)
      rw [cnfSat_append, Bool.and_eq_true]
      show _ ∧ _ ↔ α (b + 1) = specGateValue α gate ∧ consistentFrom α (b + 1) rest
      rw [gate_sat_iff hwf.1 (by omega) α, ih hwf.2]

/-! Lemmas about the evaluation semantics. -/

theorem specExtend_le :
    ∀ {gates : List (List PyVal)} {b : Nat} {σ : Nat → Bool} {v : Nat},
      v ≤ b → specExtend b gates σ v = σ v := by
  intro gates
  induction gates with
  | nil => intro b σ v _; rfl
  | cons gate rest ih =>
      intro b σ v hv
      show specExtend (b + 1) rest
          (fun u => if u = b + 1 then specGateValue σ gate else σ u) v = σ v
      rw [ih (by omega)]
      rw [if_neg (by omega)]

theorem specGateValue_congr {v : Nat} {gate : List PyVal}
    (hg : gateOk v gate = true) {σ₁ σ₂ : Nat → Bool}
    (hagree : ∀ u, 1 ≤ u → u < v → σ₁ u = σ₂ u) :
    specGateValue σ₁ gate = specGateValue σ₂ gate := by
  rcases gateOk_shapes hg with ⟨t, rfl, _⟩ | ⟨t, h1, rfl, _, hp1, hb1⟩ |
    ⟨t, h1, h2, rfl, _, hp1, hb1, hp2, hb2⟩
  · rfl
  · show specGateFun t (σ₁ h1.toNat) false = specGateFun t (σ₂ h1.toNat) false
    rw [hagree h1.toNat (by omega) (by omega)]
  · show specGateFun t (σ₁ h1.toNat) (σ₁ h2.toNat) =
        specGateFun t (σ₂ h1.toNat) (σ₂ h2.toNat)
    rw [hagree h1.toNat (by omega) (by omega), hagree h2.toNat (by omega) (by omega)]

theorem consistentFrom_specExtend :
    ∀ {gates : List (List PyVal)} {b : Nat} {σ : Nat → Bool},
      gatesWF b gates = true → consistentFrom (specExtend b gates σ) b gates := by
  intro gates
  induction gates with
  | nil => intro b σ _; trivial
  | cons gate rest ih =>
      intro b σ hwf
      rw [gatesWF_cons, Bool.and_eq_true] at hwf
      constructor
      · show specExtend (b + 1) rest
            (fun u => if u = b + 1 then specGateValue σ gate else σ u) (b + 1) =
          specGateValue (specExtend b (gate :: rest) σ) gate
        rw [specExtend_le (Nat.le_refl (b + 1))]
        simp only [if_pos rfl]
        refine (specGateValue_congr hwf.1 ?_).symm
        intro u hu1 hu2
        show specExtend (b + 1) rest
            (fun w => if w = b + 1 then specGateValue σ gate else σ w) u = σ u
        rw [specExtend_le (by omega)]
        rw [if_neg (by omega)]
      · exact ih hwf.2

theorem specExtend_eq_of_consistent :
    ∀ {gates : List (List PyVal)} {b : Nat} {α : Nat → Bool},
      gatesWF b gates = true → consistentFrom α b gates →
      ∀ v, specExtend b gates α v = α v := by
  intro gates
  induction gates with
  | nil => intro b α _ _ v; rfl
  | cons gate rest ih =>
      intro b α hwf hcons v
      rw [gatesWF_cons, Bool.and_eq_true] at hwf
      obtain ⟨h1, h2⟩ := hcons
      show specExtend (b + 1) rest
          (fun u => if u = b + 1 then specGateValue α gate else α u) v = α v
      have hfun : (fun u => if u = b + 1 then specGateValue α gate else α u) = α := by
        funext u
        by_cases hu : u = b + 1
        · rw [if_pos hu, hu, h1]
        · rw [if_neg hu]
      rw [hfun]
      exact ih hwf.2 h2 v

theorem specExtend_inputs :
    ∀ {gates : List (List PyVal)} {b : Nat} {σ₁ σ₂ : Nat → Bool},
      gatesWF b gates = true →
      (∀ u, 1 ≤ u → u ≤ b → σ₁ u = σ₂ u) →
      ∀ v, 1 ≤ v → v ≤ b + gates.length →
        specExtend b gates σ₁ v = specExtend b gates σ₂ v := by
  intro gates
  induction gates with
  | nil =>
      intro b σ₁ σ₂ _ hagree v hv1 hv2
      exact hagree v hv1 (by simpa using hv2)
  | cons gate rest ih =>
      intro b σ₁ σ₂ hwf hagree v hv1 hv2
      rw [gatesWF_cons, Bool.and_eq_true] at hwf
      show specExtend (b + 1) rest
          (fun u => if u = b + 1 then specGateValue σ₁ gate else σ₁ u) v =
        specExtend (b + 1) rest
          (fun u => if u = b + 1 then specGateValue σ₂ gate else σ₂ u) v
      apply ih hwf.2
      · intro u hu1 hu2
        by_cases hu : u = b + 1
        · simp only [if_pos hu]
          exact specGateValue_congr hwf.1 fun w hw1 hw2 => hagree w hw1 (by omega)
        · simp only [if_neg hu]
          exact hagree u hu1 (by omega)
      · exact hv1
      · have : (gate :: rest).length = rest.length + 1 := by simp
        omega

/-! Claim theorems. -/

/-- C1: for every valid circuit, the CNF produced by CSAT_to_SAT is
satisfiable iff some input assignment makes the designated output true,
and every satisfying assignment of the CNF, restricted to the input
variables 1..n, is such a witnessing input assignment. -/
theorem CSAT_to_SAT_equisat (c : Circuit) (h : circuitOk c = true) :
    (satisfiable (CSAT_to_SAT c) ↔ ∃ σ : Nat → Bool, specOutput c σ = true) ∧
    (∀ α : Nat → Bool, cnfSat α (CSAT_to_SAT c) = true →
      specOutput c (inputRestrict c.n α) = true) := by
  rw [circuitOk, Bool.and_eq_true, decide_eq_true_eq] at h
  obtain ⟨hk, hwf⟩ := h
  have hpos : 1 ≤ c.n + c.gates.length := by omega
  have hchar : ∀ α : Nat → Bool, cnfSat α (CSAT_to_SAT c) = true ↔
      (consistentFrom α c.n c.gates ∧ α (c.n + c.gates.length) = true) := by
    intro α
    have hunit : cnfSat α [[((c.n + c.gates.length : Nat) : Int)]] = true ↔
        α (c.n + c.gates.length) = true := by
      simp only [cnfSat, clauseSat, List.all_cons, List.all_nil, List.any_cons,
        List.any_nil, litSat_cast α hpos, Bool.or_false, Bool.and_true]
    show cnfSat α (gateCNFs c.n c.gates ++
        [[((c.n + c.gates.length : Nat) : Int)]]) = true ↔ _
    rw [cnfSat_append, Bool.and_eq_true, gateCNFs_sat_iff hwf, hunit]
  have hfwd : ∀ α : Nat → Bool, cnfSat α (CSAT_to_SAT c) = true →
      specOutput c α = true := by
    intro α hα
    obtain ⟨hc, hv⟩ := (hchar α).mp hα
    show specExtend c.n c.gates α (c.n + c.gates.length) = true
    rw [specExtend_eq_of_consistent hwf hc]
    exact hv
  refine ⟨⟨?_, ?_⟩, ?_⟩
  · rintro ⟨α, hα⟩
    exact ⟨α, hfwd α hα⟩
  · rintro ⟨σ, hσ⟩
    refine ⟨specExtend c.n c.gates σ, ?_⟩
    rw [hchar]
    exact ⟨consistentFrom_specExtend hwf, hσ⟩
  · intro α hα
    have h1 := hfwd α hα
    have hagree : ∀ u, 1 ≤ u → u ≤ c.n → inputRestrict c.n α u = α u := by
      intro u _ hu2
      show (if u ≤ c.n then α u else false) = α u
      rw [if_pos hu2]
    have hin := specExtend_inputs hwf hagree (c.n + c.gates.length) hpos
      (Nat.le_refl _)
    show specExtend c.n c.gates (inputRestrict c.n α) (c.n + c.gates.length) = true
    rw [hin]
    exact h1

/-- Witness for C1: the hypotheses hold at the example circuit. -/
theorem CSAT_to_SAT_equisat_witness :
    circuitOk exCircuit = true ∧
    ((satisfiable (CSAT_to_SAT exCircuit) ↔
        ∃ σ : Nat → Bool, specOutput exCircuit σ = true) ∧
     (∀ α : Nat → Bool, cnfSat α (CSAT_to_SAT exCircuit) = true →
        specOutput exCircuit (inputRestrict exCircuit.n α) = true)) :=
  ⟨by decide, CSAT_to_SAT_equisat exCircuit (by decide)⟩

/-- C2: for every gate of a valid circuit, the encoder emits exactly the
clause set of the spec table for the gate kind, this clause set occurs
inside the produced CNF, and it is satisfied by an assignment iff the
gate variable equals the gate function applied to the operand values. -/
theorem gate_clauses_match_table (c : Circuit) (h : circuitOk c = true)
    (i : Nat) (hi : i < c.gates.length) (α : Nat → Bool) :
    gateClauses ((c.n + 1 + i : Nat) : Int) (c.gates.getD i []) =
      specTseitinClauses ((c.n + 1 + i : Nat) : Int) (c.gates.getD i []) ∧
    (∃ pre post, CSAT_to_SAT c =
      pre ++ gateClauses ((c.n + 1 + i : Nat) : Int) (c.gates.getD i []) ++ post) ∧
    (cnfSat α (gateClauses ((c.n + 1 + i : Nat) : Int) (c.gates.getD i [])) = true ↔
      α (c.n + 1 + i) = specGateValue α (c.gates.getD i [])) := by
  rw [circuitOk, Bool.and_eq_true] at h
  have hg := gatesWF_getD h.2 hi
  refine ⟨gateClauses_eq_specTable hg _, ?_, gate_sat_iff hg (by omega) α⟩
  obtain ⟨pre, post, hd⟩ := gateCNFs_decomp (b := c.n) (i := i) hi
  refine ⟨pre, post ++ [[((c.n + c.gates.length : Nat) : Int)]], ?_⟩
  show gateCNFs c.n c.gates ++ [[((c.n + c.gates.length : Nat) : Int)]] = _
  rw [hd]
  simp [List.append_assoc]

/-- Witness for C2 at gate 0 of the example circuit. -/
theorem gate_clauses_match_table_witness :
    circuitOk exCircuit = true ∧ 0 < exCircuit.gates.length ∧
    (gateClauses ((exCircuit.n + 1 + 0 : Nat) : Int) (exCircuit.gates.getD 0 []) =
       specTseitinClauses ((exCircuit.n + 1 + 0 : Nat) : Int)
         (exCircuit.gates.getD 0 []) ∧
     (∃ pre post, CSAT_to_SAT exCircuit =
       pre ++ gateClauses ((exCircuit.n + 1 + 0 : Nat) : Int)
         (exCircuit.gates.getD 0 []) ++ post) ∧
     (cnfSat (fun _ => true)
         (gateClauses ((exCircuit.n + 1 + 0 : Nat) : Int)
           (exCircuit.gates.getD 0 [])) = true ↔
       (fun _ => true) (exCircuit.n + 1 + 0) =
         specGateValue (fun _ => true) (exCircuit.gates.getD 0 []))) :=
  ⟨by decide, by decide,
    gate_clauses_match_table exCircuit (by decide) 0 (by decide) (fun _ => true)⟩

/-- C9: the produced CNF is the per-gate clauses followed by, and hence
ends with, the single unit clause over the output variable
`n + len(gates)`. -/
theorem CSAT_final_unit_clause (c : Circuit) (_h : circuitOk c = true) :
    CSAT_to_SAT c = gateCNFs c.n c.gates ++
      [[((c.n + c.gates.length : Nat) : Int)]] ∧
    (CSAT_to_SAT c).getLast? = some [((c.n + c.gates.length : Nat) : Int)] := by
  refine ⟨rfl, ?_⟩
  show (gateCNFs c.n c.gates ++
      [[((c.n + c.gates.length : Nat) : Int)]]).getLast? = _
  rw [List.getLast?_concat]

/-- Witness for C9 at the example circuit. -/
theorem CSAT_final_unit_clause_witness :
    circuitOk exCircuit = true ∧
    (CSAT_to_SAT exCircuit = gateCNFs exCircuit.n exCircuit.gates ++
      [[((exCircuit.n + exCircuit.gates.length : Nat) : Int)]] ∧
    (CSAT_to_SAT exCircuit).getLast? =
      some [((exCircuit.n + exCircuit.gates.length : Nat) : Int)]) :=
  ⟨by decide, CSAT_final_unit_clause exCircuit (by decide)⟩

/-! Validator lemmas. -/

theorem checkGate_eq (g : Int) (rg : RawGate) :
    (checkGate g rg = none ↔ ¬ claimGateOk g rg) ∧
    (∀ gate, checkGate g rg = some gate → gate = rawToGate rg) := by
  obtain ⟨tag, ops⟩ := rg
  by_cases hv : valid_gate_type tag = true
  · rcases valid_gate_type_cases hv with rfl | rfl | rfl | rfl | rfl | rfl | rfl | rfl
    · -- tag "0"
      have e : checkGate g ⟨"0", ops⟩ =
          (if ops.length = 0 then some [PyVal.vstr "0"] else none) := by
        have c1 : (!(valid_gate_type "0")) = false := rfl
        have c2 : is_nullary "0" = true := rfl
        have c3 : is_unary "0" = false := rfl
        have c4 : is_binary "0" = false := rfl
        by_cases h : ops.length = 0 <;> simp [checkGate, c1, c2, c3, c4, h]
      have a0 : arityOf "0" = 0 := rfl
      rw [e]
      by_cases h : ops.length = 0
      · obtain rfl : ops = [] := List.length_eq_zero.mp h
        constructor
        · simp [claimGateOk, a0, hv]
        · intro gate hg
          simp at hg
          simp [rawToGate, ← hg]
      · constructor
        · simp [claimGateOk, a0, h]
        · intro gate hg
          simp [h] at hg
    · -- tag "1"
      have e : checkGate g ⟨"1", ops⟩ =
          (if ops.length = 0 then some [PyVal.vstr "1"] else none) := by
        have c1 : (!(valid_gate_type "1")) = false := rfl
        have c2 : is_nullary "1" = true := rfl
        have c3 : is_unary "1" = false := rfl
        have c4 : is_binary "1" = false := rfl
        by_cases h : ops.length = 0 <;> simp [checkGate, c1, c2, c3, c4, h]
      have a0 : arityOf "1" = 0 := rfl
      rw [e]
      by_cases h : ops.length = 0
      · obtain rfl : ops = [] := List.length_eq_zero.mp h
        constructor
        · simp [claimGateOk, a0, hv]
        · intro gate hg
          simp at hg
          simp [rawToGate, ← hg]
      · constructor
        · simp [claimGateOk, a0, h]
        · intro gate hg
          simp [h] at hg
    · -- tag "C"
      have e : checkGate g ⟨"C", ops⟩ =
          (if ops.length = 1 then
            (if is_gate_valid (ops.headD 0) g then
              some [PyVal.vstr "C", PyVal.vint (ops.headD 0)] else none)
          else none) := by
        have c1 : (!(valid_gate_type "C")) = false := rfl
        have c2 : is_nullary "C" = false := rfl
        have c3 : is_unary "C" = true := rfl
        have c4 : is_binary "C" = false := rfl
        by_cases h : ops.length = 1 <;> simp [checkGate, c1, c2, c3, c4, h]
      have a1 : arityOf "C" = 1 := rfl
      rw [e]
      by_cases h : ops.length = 1
      · obtain ⟨x, rfl⟩ := List.length_eq_one.mp h
        by_cases hx : is_gate_valid x g = true
        · have hx2 : x < g ∧ x > 0 := by simpa [is_gate_valid] using hx
          constructor
          · simp [claimGateOk, a1, hv, hx, hx2.1, hx2.2]
          · intro gate hg
            simp [hx] at hg
            simp [rawToGate, ← hg]
        · have hx2 : ¬(x < g ∧ x > 0) := by simpa [is_gate_valid] using hx
          constructor
          · simp only [List.headD_cons, hx, if_false, Bool.false_eq_true]
            constructor
            · intro _ hcl
              obtain ⟨-, -, hall⟩ := hcl
              obtain ⟨hx1, hxg⟩ := hall x (by simp)
              exact hx2 ⟨hxg, hx1⟩
            · intro _
              simp [hx]
          · intro gate hg
            simp [hx] at hg
      · constructor
        · simp [claimGateOk, a1, h]
        · intro gate hg
          simp [h] at hg
    · -- tag "A"
      have e : checkGate g ⟨"A", ops⟩ =
          (if ops.length = 2 then
            (if is_gate_valid (ops.headD 0) g &&
                is_gate_valid ((ops.drop 1).headD 0) g then
              some [PyVal.vstr "A", PyVal.vint (ops.headD 0),
                PyVal.vint ((ops.drop 1).headD 0)] else none)
          else none) := by
        have c1 : (!(valid_gate_type "A")) = false := rfl
        have c2 : is_nullary "A" = false := rfl
        have c3 : is_unary "A" = false := rfl
        have c4 : is_binary "A" = true := rfl
        by_cases h : ops.length = 2 <;> simp [checkGate, c1, c2, c3, c4, h]
      have a2 : arityOf "A" = 2 := rfl
      rw [e]
      by_cases h : ops.length = 2
      · obtain ⟨x, y, rfl⟩ := List.length_eq_two.mp h
        by_cases hx : (is_gate_valid x g && is_gate_valid y g) = true
        · have hx2 : (x < g ∧ x > 0) ∧ (y < g ∧ y > 0) := by
            simpa [is_gate_valid] using hx
          constructor
          · simp [claimGateOk, a2, hv, hx, hx2.1.1, hx2.1.2, hx2.2.1, hx2.2.2]
          · intro gate hg
            simp [hx] at hg
            simp [rawToGate, ← hg]
        · have hx2 : ¬((x < g ∧ x > 0) ∧ (y < g ∧ y > 0)) := by
            simpa [is_gate_valid] using hx
          constructor
          · simp only [List.headD_cons, List.drop_succ_cons, List.drop_zero, hx,
              if_false, Bool.false_eq_true]
            constructor
            · intro _ hcl
              obtain ⟨-, -, hall⟩ := hcl
              obtain ⟨hx1, hxg⟩ := hall x (by simp)
              obtain ⟨hy1, hyg⟩ := hall y (by simp)
              exact hx2 ⟨⟨hxg, hx1⟩, ⟨hyg, hy1⟩⟩
            · intro _
              simp [hx]
          · intro gate hg
            simp [hx] at hg
      · constructor
        · simp [claimGateOk, a2, h]
        · intro gate hg
          simp [h] at hg
    · -- tag "N"
      have e : checkGate g ⟨"N", ops⟩ =
          (if ops.length = 1 then
            (if is_gate_valid (ops.headD 0) g then
              some [PyVal.vstr "N", PyVal.vint (ops.headD 0)] else none)
          else none) := by
        have c1 : (!(valid_gate_type "N")) = false := rfl
        have c2 : is_nullary "N" = false := rfl
        have c3 : is_unary "N" = true := rfl
        have c4 : is_binary "N" = false := rfl
        by_cases h : ops.length = 1 <;> simp [checkGate, c1, c2, c3, c4, h]
      have a1 : arityOf "N" = 1 := rfl
      rw [e]
      by_cases h : ops.length = 1
      · obtain ⟨x, rfl⟩ := List.length_eq_one.mp h
        by_cases hx : is_gate_valid x g = true
        · have hx2 : x < g ∧ x > 0 := by simpa [is_gate_valid] using hx
          constructor
          · simp [claimGateOk, a1, hv, hx, hx2.1, hx2.2]
          · intro gate hg
            simp [hx] at hg
            simp [rawToGate, ← hg]
        · have hx2 : ¬(x < g ∧ x > 0) := by simpa [is_gate_valid] using hx
          constructor
          · simp only [List.headD_cons, hx, if_false, Bool.false_eq_true]
            constructor
            · intro _ hcl
              obtain ⟨-, -, hall⟩ := hcl
              obtain ⟨hx1, hxg⟩ := hall x (by simp)
              exact hx2 ⟨hxg, hx1⟩
            · intro _
              simp [hx]
          · intro gate hg
            simp [hx] at hg
      · constructor
        · simp [claimGateOk, a1, h]
        · intro gate hg
          simp [h] at hg
    · -- tag "O"
      have e : checkGate g ⟨"O", ops⟩ =
          (if ops.length = 2 then
            (if is_gate_valid (ops.headD 0) g &&
                is_gate_valid ((ops.drop 1).headD 0) g then
              some [PyVal.vstr "O", PyVal.vint (ops.headD 0),
                PyVal.vint ((ops.drop 1).headD 0)] else none)
          else none) := by
        have c1 : (!(valid_gate_type "O")) = false := rfl
        have c2 : is_nullary "O" = false := rfl
        have c3 : is_unary "O" = false := rfl
        have c4 : is_binary "O" = true := rfl
        by_cases h : ops.length = 2 <;> simp [checkGate, c1, c2, c3, c4, h]
      have a2 : arityOf "O" = 2 := rfl
      rw [e]
      by_cases h : ops.length = 2
      · obtain ⟨x, y, rfl⟩ := List.length_eq_two.mp h
        by_cases hx : (is_gate_valid x g && is_gate_valid y g) = true
        · have hx2 : (x < g ∧ x > 0) ∧ (y < g ∧ y > 0) := by
            simpa [is_gate_valid] using hx
          constructor
          · simp [claimGateOk, a2, hv, hx, hx2.1.1, hx2.1.2, hx2.2.1, hx2.2.2]
          · intro gate hg
            simp [hx] at hg
            simp [rawToGate, ← hg]
        · have hx2 : ¬((x < g ∧ x > 0) ∧ (y < g ∧ y > 0)) := by
            simpa [is_gate_valid] using hx
          constructor
          · simp only [List.headD_cons, List.drop_succ_cons, List.drop_zero, hx,
              if_false, Bool.false_eq_true]
            constructor
            · intro _ hcl
              obtain ⟨-, -, hall⟩ := hcl
              obtain ⟨hx1, hxg⟩ := hall x (by simp)
              obtain ⟨hy1, hyg⟩ := hall y (by simp)
              exact hx2 ⟨⟨hxg, hx1⟩, ⟨hyg, hy1⟩⟩
            · intro _
              simp [hx]
          · intro gate hg
            simp [hx] at hg
      · constructor
        · simp [claimGateOk, a2, h]
        · intro gate hg
          simp [h] at hg
    · -- tag "E"
      have e : checkGate g ⟨"E", ops⟩ =
          (if ops.length = 2 then
            (if is_gate_valid (ops.headD 0) g &&
                is_gate_valid ((ops.drop 1).headD 0) g then
              some [PyVal.vstr "E", PyVal.vint (ops.headD 0),
                PyVal.vint ((ops.drop 1).headD 0)] else none)
          else none) := by
        have c1 : (!(valid_gate_type "E")) = false := rfl
        have c2 : is_nullary "E" = false := rfl
        have c3 : is_unary "E" = false := rfl
        have c4 : is_binary "E" = true := rfl
        by_cases h : ops.length = 2 <;> simp [checkGate, c1, c2, c3, c4, h]
      have a2 : arityOf "E" = 2 := rfl
      rw [e]
      by_cases h : ops.length = 2
      · obtain ⟨x, y, rfl⟩ := List.length_eq_two.mp h
        by_cases hx : (is_gate_valid x g && is_gate_valid y g) = true
        · have hx2 : (x < g ∧ x > 0) ∧ (y < g ∧ y > 0) := by
            simpa [is_gate_valid] using hx
          constructor
          · simp [claimGateOk, a2, hv, hx, hx2.1.1, hx2.1.2, hx2.2.1, hx2.2.2]
          · intro gate hg
            simp [hx] at hg
            simp [rawToGate, ← hg]
        · have hx2 : ¬((x < g ∧ x > 0) ∧ (y < g ∧ y > 0)) := by
            simpa [is_gate_valid] using hx
          constructor
          · simp only [List.headD_cons, List.drop_succ_cons, List.drop_zero, hx,
              if_false, Bool.false_eq_true]
            constructor
            · intro _ hcl
              obtain ⟨-, -, hall⟩ := hcl
              obtain ⟨hx1, hxg⟩ := hall x (by simp)
              obtain ⟨hy1, hyg⟩ := hall y (by simp)
              exact hx2 ⟨⟨hxg, hx1⟩, ⟨hyg, hy1⟩⟩
            · intro _
              simp [hx]
          · intro gate hg
            simp [hx] at hg
      · constructor
        · simp [claimGateOk, a2, h]
        · intro gate hg
          simp [h] at hg
    · -- tag "X"
      have e : checkGate g ⟨"X", ops⟩ =
          (if ops.length = 2 then
            (if is_gate_valid (ops.headD 0) g &&
                is_gate_valid ((ops.drop 1).headD 0) g then
              some [PyVal.vstr "X", PyVal.vint (ops.headD 0),
                PyVal.vint ((ops.drop 1).headD 0)] else none)
          else none) := by
        have c1 : (!(valid_gate_type "X")) = false := rfl
        have c2 : is_nullary "X" = false := rfl
        have c3 : is_unary "X" = false := rfl
        have c4 : is_binary "X" = true := rfl
        by_cases h : ops.length = 2 <;> simp [checkGate, c1, c2, c3, c4, h]
      have a2 : arityOf "X" = 2 := rfl
      rw [e]
      by_cases h : ops.length = 2
      · obtain ⟨x, y, rfl⟩ := List.length_eq_two.mp h
        by_cases hx : (is_gate_valid x g && is_gate_valid y g) = true
        · have hx2 : (x < g ∧ x > 0) ∧ (y < g ∧ y > 0) := by
            simpa [is_gate_valid] using hx
          constructor
          · simp [claimGateOk, a2, hv, hx, hx2.1.1, hx2.1.2, hx2.2.1, hx2.2.2]
          · intro gate hg
            simp [hx] at hg
            simp [rawToGate, ← hg]
        · have hx2 : ¬((x < g ∧ x > 0) ∧ (y < g ∧ y > 0)) := by
            simpa [is_gate_valid] using hx
          constructor
          · simp only [List.headD_cons, List.drop_succ_cons, List.drop_zero, hx,
              if_false, Bool.false_eq_true]
            constructor
            · intro _ hcl
              obtain ⟨-, -, hall⟩ := hcl
              obtain ⟨hx1, hxg⟩ := hall x (by simp)
              obtain ⟨hy1, hyg⟩ := hall y (by simp)
              exact hx2 ⟨⟨hxg, hx1⟩, ⟨hyg, hy1⟩⟩
            · intro _
              simp [hx]
          · intro gate hg
            simp [hx] at hg
      · constructor
        · simp [claimGateOk, a2, h]
        · intro gate hg
          simp [h] at hg
  · have hvf : valid_gate_type tag = false := by
      cases hq : valid_gate_type tag
      · rfl
      · exact absurd hq hv
    constructor
    · constructor
      · intro _ hcl
        exact hv hcl.1
      · intro _
        simp [checkGate, hvf]
    · intro gate hg
      simp [checkGate, hvf] at hg

theorem read_gates_spec :
    ∀ (raws : List RawGate) (g : Int),
      (read_gates g raws = none ↔
        ∃ i, i < raws.length ∧
          ¬ claimGateOk (g + (i : Int)) (raws.getD i ⟨"", []⟩)) ∧
      (∀ gs, read_gates g raws = some gs → gs = raws.map rawToGate) := by
  intro raws
  induction raws with
  | nil =>
      intro g
      constructor
      · simp [read_gates]
      · intro gs h
        simp [read_gates] at h
        simp [← h]
  | cons rg rest ih =>
      intro g
      cases hcg : checkGate g rg with
      | none =>
          have hbad := (checkGate_eq g rg).1.mp hcg
          constructor
          · constructor
            · intro _
              exact ⟨0, by simp, by simpa using hbad⟩
            · intro _
              simp [read_gates, hcg]
          · intro gs h
            simp [read_gates, hcg] at h
      | some gate =>
          have hok : claimGateOk g rg := by
            by_contra hnc
            have hn := (checkGate_eq g rg).1.mpr hnc
            rw [hcg] at hn
            exact Option.noConfusion hn
          have hrec := ih (g + 1)
          constructor
          · have lhs_iff : read_gates g (rg :: rest) = none ↔
                read_gates (g + 1) rest = none := by
              cases hr : read_gates (g + 1) rest <;> simp [read_gates, hcg, hr]
            rw [lhs_iff, hrec.1]
            constructor
            · rintro ⟨i, hi, hbad⟩
              refine ⟨i + 1, by simpa using Nat.succ_lt_succ hi, ?_⟩
              have e : g + ((i + 1 : Nat) : Int) = g + 1 + (i : Int) := by
                push_cast
                ring
              rw [List.getD_cons_succ, e]
              exact hbad
            · rintro ⟨i, hi, hbad⟩
              cases i with
              | zero =>
                  exfalso
                  apply hbad
                  simpa using hok
              | succ j =>
                  refine ⟨j, by simp only [List.length_cons] at hi; omega, ?_⟩
                  rw [List.getD_cons_succ] at hbad
                  have e : g + ((j + 1 : Nat) : Int) = g + 1 + (j : Int) := by
                    push_cast
                    ring
                  rw [e] at hbad
                  exact hbad
          · intro gs h
            cases hr : read_gates (g + 1) rest with
            | none => simp [read_gates, hcg, hr] at h
            | some gs2 =>
                simp only [read_gates, hcg, hr, Option.some.injEq] at h
                have hg : gate = rawToGate rg := (checkGate_eq g rg).2 gate hcg
                have hg2 : gs2 = rest.map rawToGate := hrec.2 gs2 hr
                rw [← h, List.map_cons, hg, hg2]

/-- C3: the circuit validator fails exactly when the gate list is empty,
or some gate has an unrecognised tag, an operand count different from
the arity of its tag, or an operand outside the open range from 0 to its
own variable `n + 1 + i` (0-based index `i`); otherwise it returns the
circuit with that input count and exactly those gates. -/
theorem read_circuit_spec (n : Nat) (raws : List RawGate) :
    (read_circuit n raws = none ↔
      raws = [] ∨ ∃ i, i < raws.length ∧
        ¬ claimGateOk ((n + 1 + i : Nat) : Int) (raws.getD i ⟨"", []⟩)) ∧
    (∀ c, read_circuit n raws = some c →
      c.n = n ∧ c.gates = raws.map rawToGate) := by
  have ecast : ∀ i : Nat, ((n + 1 + i : Nat) : Int) = ((n : Int) + 1) + (i : Int) := by
    intro i
    push_cast
    ring
  by_cases h0 : raws.length = 0
  · obtain rfl : raws = [] := List.eq_nil_of_length_eq_zero h0
    constructor
    · constructor
      · intro _
        exact Or.inl rfl
      · intro _
        simp [read_circuit]
    · intro c hc
      exact absurd hc (by simp [read_circuit])
  · have hne : (raws.length == 0) = false := by simpa using h0
    have hgoal := read_gates_spec raws ((n : Int) + 1)
    cases hr : read_gates ((n : Int) + 1) raws with
    | none =>
        constructor
        · constructor
          · intro _
            refine Or.inr ?_
            obtain ⟨i, hi, hbad⟩ := hgoal.1.mp hr
            refine ⟨i, hi, ?_⟩
            rw [ecast i]
            exact hbad
          · intro _
            simp [read_circuit, hne, hr]
        · intro c hc
          simp [read_circuit, hne, hr] at hc
    | some gs =>
        have hsome : read_circuit n raws = some ⟨n, gs⟩ := by
          simp [read_circuit, hne, hr]
        constructor
        · constructor
          · intro hcon
            rw [hsome] at hcon
            exact absurd hcon (by simp)
          · rintro (rfl | ⟨i, hi, hbad⟩)
            · exact absurd rfl h0
            · exfalso
              have hnex : ¬ ∃ i, i < raws.length ∧
                  ¬ claimGateOk ((n : Int) + 1 + (i : Int))
                    (raws.getD i ⟨"", []⟩) := by
                rw [← hgoal.1, hr]
                simp
              rw [ecast i] at hbad
              exact hnex ⟨i, hi, hbad⟩
        · intro c hc
          rw [hsome, Option.some.injEq] at hc
          subst hc
          exact ⟨rfl, hgoal.2 gs hr⟩

/-- Witness for C3 at a concrete accepted input. -/
theorem read_circuit_spec_witness :
    (read_circuit 1 [⟨"C", [1]⟩] = none ↔
      [(⟨"C", [1]⟩ : RawGate)] = [] ∨ ∃ i, i < [(⟨"C", [1]⟩ : RawGate)].length ∧
        ¬ claimGateOk ((1 + 1 + i : Nat) : Int)
          ([(⟨"C", [1]⟩ : RawGate)].getD i ⟨"", []⟩)) ∧
    (∀ c, read_circuit 1 [⟨"C", [1]⟩] = some c →
      c.n = 1 ∧ c.gates = [(⟨"C", [1]⟩ : RawGate)].map rawToGate) :=
  read_circuit_spec 1 [⟨"C", [1]⟩]

/-- C8: the duplicated circuit has 2n inputs and 2k+1 gates, laid out as
k original-side gates, then k copy-side gates, then one final binary AND
gate over the two output variables 2n+k and 2n+2k. -/
theorem copy_circuit_shape (c : Circuit) (_h : circuitOk c = true) :
    (copy_circuit c).n = 2 * c.n ∧
    (copy_circuit c).gates.length = 2 * c.gates.length + 1 ∧
    ∃ og cg, og.length = c.gates.length ∧ cg.length = c.gates.length ∧
      (copy_circuit c).gates = og ++ cg ++
        [[PyVal.vstr "A", PyVal.vint ((2 * c.n + c.gates.length : Nat) : Int),
          PyVal.vint ((2 * c.n + 2 * c.gates.length : Nat) : Int)]] := by
  have ecast : ((2 * c.n + c.gates.length + c.gates.length : Nat) : Int) =
      ((2 * c.n + 2 * c.gates.length : Nat) : Int) := by
    push_cast
    ring
  refine ⟨rfl, ?_, ?_⟩
  · show ((c.gates.map (copyGateStep c.n c.gates.length)).map Prod.fst ++
        (c.gates.map (copyGateStep c.n c.gates.length)).map Prod.snd ++
        [[PyVal.vstr "A", PyVal.vint ((2 * c.n + c.gates.length : Nat) : Int),
          PyVal.vint ((2 * c.n + c.gates.length + c.gates.length : Nat) : Int)]]).length =
      2 * c.gates.length + 1
    simp [List.length_append, List.length_map]
    omega
  · refine ⟨(c.gates.map (copyGateStep c.n c.gates.length)).map Prod.fst,
      (c.gates.map (copyGateStep c.n c.gates.length)).map Prod.snd,
      by simp, by simp, ?_⟩
    show (c.gates.map (copyGateStep c.n c.gates.length)).map Prod.fst ++
        (c.gates.map (copyGateStep c.n c.gates.length)).map Prod.snd ++
        [[PyVal.vstr "A", PyVal.vint ((2 * c.n + c.gates.length : Nat) : Int),
          PyVal.vint ((2 * c.n + c.gates.length + c.gates.length : Nat) : Int)]] = _
    rw [ecast]

/-- Witness for C8 at the example circuit. -/
theorem copy_circuit_shape_witness :
    circuitOk exCircuit = true ∧
    ((copy_circuit exCircuit).n = 2 * exCircuit.n ∧
     (copy_circuit exCircuit).gates.length = 2 * exCircuit.gates.length + 1 ∧
     ∃ og cg, og.length = exCircuit.gates.length ∧
       cg.length = exCircuit.gates.length ∧
       (copy_circuit exCircuit).gates = og ++ cg ++
         [[PyVal.vstr "A",
           PyVal.vint ((2 * exCircuit.n + exCircuit.gates.length : Nat) : Int),
           PyVal.vint ((2 * exCircuit.n + 2 * exCircuit.gates.length : Nat) : Int)]]) :=
  ⟨by decide, copy_circuit_shape exCircuit (by decide)⟩

/-- C10: on input rejected by the validator, both reduction drivers
return normally with the fixed two-clause CNF [[-1], [1]], which no
assignment satisfies. -/
theorem reduce_invalid_fixed_output (n : Nat) (raws : List RawGate)
    (h : read_circuit n raws = none) :
    reduce_CSAT_to_SAT n raws = [[-1], [1]] ∧
    reduce_CSAT2_to_SAT n raws = [[-1], [1]] ∧
    (∀ α : Nat → Bool, cnfSat α [[-1], [1]] = false) := by
  refine ⟨by simp [reduce_CSAT_to_SAT, h], by simp [reduce_CSAT2_to_SAT, h], ?_⟩
  intro α
  have e1 : clauseSat α [-1] = !(α 1) := by
    show (litSat α (-1) || false) = !(α 1)
    unfold litSat
    rw [if_neg (by norm_num)]
    norm_num
  have e2 : clauseSat α [1] = α 1 := by
    show (litSat α 1 || false) = α 1
    unfold litSat
    rw [if_pos (by norm_num)]
    norm_num
  show (clauseSat α [-1] && (clauseSat α [1] && true)) = false
  rw [e1, e2]
  cases α 1 <;> rfl

/-- Witness for C10 at the empty gate list. -/
theorem reduce_invalid_fixed_output_witness :
    read_circuit 0 [] = none ∧
    (reduce_CSAT_to_SAT 0 [] = [[-1], [1]] ∧
     reduce_CSAT2_to_SAT 0 [] = [[-1], [1]] ∧
     (∀ α : Nat → Bool, cnfSat α [[-1], [1]] = false)) :=
  ⟨rfl, reduce_invalid_fixed_output 0 [] rfl⟩

/-- C4 (the code omits the required clause): at two variables, one
coordinate pair X = (1), Y = (2) and fresh variable 3, the gadget emits
only the four XOR defining clauses; the forcing unit clause [3] over the
accumulator is absent, no clause of the output is a unit clause, and the
all-false assignment, under which coordinate x1 equals coordinate y1,
satisfies every emitted clause. -/
theorem distinct_cnf_missing_unit :
    create_distinct_variables_cnf 2 3 =
      [[-3, -1, -2], [-3, 1, 2], [3, 1, -2], [3, -1, 2]] ∧
    [(3 : Int)] ∉ create_distinct_variables_cnf 2 3 ∧
    (∀ cl ∈ create_distinct_variables_cnf 2 3, cl.length ≠ 1) ∧
    cnfSat (fun _ => false) (create_distinct_variables_cnf 2 3) = true :=
  ⟨rfl, by decide, by decide, by decide⟩

/-- C5 (the code produces a malformed copy-side gate): on the valid
one-gate circuit with a constant FALSE gate, the copy-side element is
the nested list [[tag]] rather than a gate carrying the same tag. -/
theorem copy_nullary_copy_malformed :
    circuitOk cexNullary = true ∧
    copy_circuit cexNullary =
      { n := 2,
        gates := [[PyVal.vstr "0"], [PyVal.vlist [PyVal.vstr "0"]],
                  [PyVal.vstr "A", PyVal.vint 3, PyVal.vint 4]] } ∧
    (∀ t : String, [PyVal.vlist [PyVal.vstr "0"]] ≠ [PyVal.vstr t]) := by
  refine ⟨by decide, rfl, ?_⟩
  intro t h
  exact PyVal.noConfusion (List.cons.inj h).1

/-- C6 (the code mutates its input): on a valid circuit whose second
gate references the first gate, the gate list held by the argument after
copy_circuit returns differs from the list it held before the call; the
operand 2 has been rewritten to 3. -/
theorem copy_circuit_mutates_input :
    circuitOk cexTwoGates = true ∧
    copy_circuit_post_gates cexTwoGates =
      [[PyVal.vstr "C", PyVal.vint 1], [PyVal.vstr "N", PyVal.vint 3]] ∧
    copy_circuit_post_gates cexTwoGates ≠ cexTwoGates.gates := by
  refine ⟨by decide, rfl, ?_⟩
  intro h
  have e1 : copy_circuit_post_gates cexTwoGates =
      [[PyVal.vstr "C", PyVal.vint 1], [PyVal.vstr "N", PyVal.vint 3]] := rfl
  have e2 : cexTwoGates.gates =
      [[PyVal.vstr "C", PyVal.vint 1], [PyVal.vstr "N", PyVal.vint 2]] := rfl
  rw [e1, e2] at h
  have h2 := (List.cons.inj h).2
  have h3 := (List.cons.inj h2).1
  have h4 := (List.cons.inj h3).2
  have h5 := (List.cons.inj h4).1
  injection h5 with h6
  exact absurd h6 (by norm_num)

/-- C7 (the code emits literal 0): the CSAT2 pipeline output for the
valid one-gate circuit with a constant TRUE gate contains clauses
holding literal 0, because the nested-list copy gate falls through to
the XOR branch of the encoder with both operand defaults 0; the direct
CSAT encoding of the same circuit contains no literal 0. -/
theorem csat2_zero_literal :
    circuitOk cexTrue = true ∧
    read_circuit 1 [⟨"1", []⟩] = some cexTrue ∧
    (∃ cl ∈ reduce_CSAT2_to_SAT 1 [⟨"1", []⟩], (0 : Int) ∈ cl) ∧
    (∀ cl ∈ CSAT_to_SAT cexTrue, (0 : Int) ∉ cl) :=
  ⟨by decide, rfl, by decide, by decide⟩
